import Mathlib

/-!
Verification of the Reference-Data Resolution & Concurrent Acquisition Engine
of the Curve-Your-Enthusiasm repository, shallowly embedded from the Python
sources src/fetch_treasuries.py and src/schwab_treasuries.py.

Dates are modelled as integer day numbers, monetary/numeric table cells as
rationals, and the outcome of a single network request (HTTP status, body
parse, timeout) as an Except value supplied by the environment.  A Python
exception escaping a function is modelled as an Except.error result; an
exception caught by a try/except block is modelled by the handler's value,
exactly as in the source.
-/

deriving instance DecidableEq for Except

attribute [local semireducible] Rat.mul Rat.inv Rat.add Rat.sub

namespace CurveSpec

/-- Python-level failure classes relevant to the fetch code paths. -/
inductive PyErr where
  | typeError
  | keyError
  | parseError
  | httpError (code : Nat)
  | timedOut
deriving DecidableEq, Repr

/-- True exactly on a successful Except value. -/
def is_ok {ε α : Type} : Except ε α → Bool
  | .ok _ => true
  | .error _ => false

/-- True exactly on a failed Except value. -/
def is_error {ε α : Type} : Except ε α → Bool
  | .ok _ => false
  | .error _ => true

/-- Model of asyncio.gather over already-determined task outcomes, without
return_exceptions: if every task succeeds the list of results is returned,
otherwise the exception of a failed task propagates (the model reports the
first failure in task order). -/
def gather_results {α : Type} : List (Except PyErr α) → Except PyErr (List α)
  | [] => .ok []
  | t :: rest =>
    match t with
    | .error e => .error e
    | .ok a =>
      match gather_results rest with
      | .ok as => .ok (a :: as)
      | .error e => .error e

/-- Page size constant of get_treasury_query_sizing in src/fetch_treasuries.py. -/
def MAX_TREASURY_GOV_API_CONTENT_SIZE : Nat := 10000

/-- Model of math.ceil(size / MAX_TREASURY_GOV_API_CONTENT_SIZE). -/
def number_requests (size : Nat) : Nat :=
  (size + MAX_TREASURY_GOV_API_CONTENT_SIZE - 1) / MAX_TREASURY_GOV_API_CONTENT_SIZE

/-- Model of get_treasury_query_sizing: the probe request with page size 1
either fails (none) or reports meta total-count.  On success the function
returns the list of page numbers of the generated URLs, page i+1 for
i in range(number_requests); on probe failure the Python function falls off
the if-statement and implicitly returns None, modelled as none. -/
def get_treasury_query_sizing (probe : Option Nat) : Option (List Nat) :=
  probe.map (fun size => (List.range (number_requests size)).map (fun i => i + 1))

/-- Model of get_historical_treasury_auctions.  page_data gives, for each
page number, the outcome of fetching and parsing that page URL (the inner
fetch coroutine has no try/except, so its outcome is exactly the page
outcome).  When the sizer returned None, the list comprehension in run_fetch
iterates over None and raises a TypeError; otherwise asyncio.gather collects
all pages and the results are concatenated in page order. -/
def get_historical_treasury_auctions {α : Type} (probe : Option Nat)
    (page_data : Nat → Except PyErr (List α)) : Except PyErr (List α) :=
  match get_treasury_query_sizing probe with
  | none => .error .typeError
  | some links => (gather_results (links.map page_data)).map List.flatten

/-! ### Sorting and grouping primitives

The pandas operations sort_values, groupby (whose keys are iterated in
ascending order), groupby.first and groupby.nth are modelled over lists.
sort_by is a comparison sort; pandas sort_values uses an unstable quicksort
and the relative order of tied keys is unspecified, so any comparison sort
is a faithful model and we use a deterministic insertion sort.  String keys
are compared by code points, as Python compares str values. -/

/-- Code-point lexicographic comparison of character lists. -/
def chars_le : List Char → List Char → Bool
  | [], _ => true
  | _ :: _, [] => false
  | a :: as, b :: bs =>
    decide (a.toNat < b.toNat) || (decide (a.toNat = b.toNat) && chars_le as bs)

/-- Python string comparison (code-point lexicographic). -/
def str_le (a b : String) : Bool := chars_le a.data b.data

/-- Insert an element into a list before the first element it compares
less-or-equal to. -/
def ord_insert {α : Type} (le : α → α → Bool) (a : α) : List α → List α
  | [] => [a]
  | b :: l => if le a b then a :: b :: l else b :: ord_insert le a l

/-- Insertion sort by a boolean comparison. -/
def sort_by {α : Type} (le : α → α → Bool) : List α → List α
  | [] => []
  | a :: l => ord_insert le a (sort_by le l)

/-- The distinct grouping keys of a list, in ascending order: pandas groupby
iterates groups by sorted key. -/
def keys_of {α : Type} (key : α → String) (l : List α) : List String :=
  sort_by str_le ((l.map key).dedup)

/-- The rows of one group, in the order they appear in the frame. -/
def rows_of {α : Type} (key : α → String) (t : String) (l : List α) : List α :=
  l.filter (fun r => key r == t)

/-- Model of groupby(key).first().reset_index(): one row per group key (in
ascending key order), namely the first row of the group in frame order. -/
def groupby_first {α : Type} (key : α → String) (l : List α) : List α :=
  (keys_of key l).filterMap (fun t => (rows_of key t l).head?)

/-! ### On/Off-The-Run Identifier Resolver (get_last_n_off_the_run_cusips) -/

/-- One auction record of the bulk auctions_query dataset, restricted to the
fields the resolver reads.  idx is the row's position in the input sequence,
which becomes the DataFrame integer index and survives every filter and
sort; dates are day numbers. -/
structure AuctionRecord where
  idx : Nat
  cusip : String
  security_type : String
  original_security_term : String
  security_term_week_year : String
  auction_date : Int
  issue_date : Int
deriving DecidableEq, Repr

/-- The grouping key of the resolver. -/
def auction_term (r : AuctionRecord) : String := r.original_security_term

/-- The TIPS/FRN/CMB family excluded by get_last_n_off_the_run_cusips. -/
def excluded_security_type (s : String) : Bool :=
  s == "TIPS" || s == "TIPS Note" || s == "TIPS Bond" ||
  s == "FRN" || s == "FRN Note" || s == "FRN Bond" || s == "CMB"

/-- A Bill whose original term differs from its current term (a reopening). -/
def reopened_bill (r : AuctionRecord) : Bool :=
  r.security_type == "Bill" && r.original_security_term != r.security_term_week_year

/-- The three successive row filters of get_last_n_off_the_run_cusips:
security-type family exclusion, reopened-bill drop, auction_date at or
before the current moment. -/
def filtered_auctions (current_date : Int) (records : List AuctionRecord) :
    List AuctionRecord :=
  (((records.filter (fun r => !excluded_security_type r.security_type)).filter
      (fun r => !reopened_bill r)).filter
    (fun r => decide (r.auction_date ≤ current_date)))

/-- Comparison used by sort_values on issue_date with ascending=False. -/
def issue_desc (a b : AuctionRecord) : Bool := decide (b.issue_date ≤ a.issue_date)

/-- The filtered frame sorted by issue_date descending. -/
def sorted_auctions (current_date : Int) (records : List AuctionRecord) :
    List AuctionRecord :=
  sort_by issue_desc (filtered_auctions current_date records)

/-- Model of on_the_run_result: groupby original_security_term, first row of
each group of the issue-date-descending frame. -/
def on_the_run_result (s : List AuctionRecord) : List AuctionRecord :=
  groupby_first auction_term s

/-- Model of the row selection auctions_df[~auctions_df.index.isin(on_the_run.index)].
After reset_index, on_the_run.index is the RangeIndex 0..g-1 where g is the
number of term groups, so the line keeps exactly the rows whose original
integer index is at least g. -/
def off_the_run_pool (g : Nat) (s : List AuctionRecord) : List AuctionRecord :=
  s.filter (fun r => !decide (r.idx < g))

/-- Model of off_the_run.groupby(original_security_term).nth(range(1, n+1)):
for each group of the pool, the rows at positions 1..n of that group. -/
def off_the_run_result (n g : Nat) (s : List AuctionRecord) : List AuctionRecord :=
  (keys_of auction_term (off_the_run_pool g s)).flatMap
    (fun t => ((rows_of auction_term t (off_the_run_pool g s)).drop 1).take n)

/-- Comparison of sort_values(by=[original_security_term, issue_date],
ascending=[True, False]). -/
def term_issue_le (a b : AuctionRecord) : Bool :=
  if a.original_security_term == b.original_security_term then
    decide (b.issue_date ≤ a.issue_date)
  else
    str_le a.original_security_term b.original_security_term

/-- Model of combined_result: concatenate the on-the-run rows and the
selected off-the-run rows and re-sort by term ascending, issue descending. -/
def combined_result (n : Nat) (current_date : Int) (records : List AuctionRecord) :
    List AuctionRecord :=
  sort_by term_issue_le
    (on_the_run_result (sorted_auctions current_date records) ++
      off_the_run_result n
        (keys_of auction_term (sorted_auctions current_date records)).length
        (sorted_auctions current_date records))

/-- The fixed term-label to fractional-year tenor mapping of the source. -/
def tenor_mapping (t : String) : Option ℚ :=
  if t == "17-Week" then some (mkRat 1 4)
  else if t == "26-Week" then some (mkRat 1 2)
  else if t == "52-Week" then some 1
  else if t == "2-Year" then some 2
  else if t == "3-Year" then some 3
  else if t == "5-Year" then some 5
  else if t == "7-Year" then some 7
  else if t == "10-Year" then some 10
  else if t == "20-Year" then some 20
  else if t == "30-Year" then some 30
  else none

/-- Numeric tenor of a row, defaulting to 0 outside the mapping (the mask
below removes exactly the rows without a mapped tenor, so the default is
never compared within the resolver's output). -/
def tenor_value (r : AuctionRecord) : ℚ :=
  (tenor_mapping r.original_security_term).getD 0

/-- Comparison by numeric tenor ascending, used to sort each emitted layer. -/
def tenor_le_rec (a b : AuctionRecord) : Bool := decide (tenor_value a ≤ tenor_value b)

/-- Model of mapped_and_filtered_df: the combined frame restricted to rows
whose original_security_term is a key of the tenor mapping. -/
def masked_result (n : Nat) (current_date : Int) (records : List AuctionRecord) :
    List AuctionRecord :=
  (combined_result n current_date records).filter
    (fun r => (tenor_mapping r.original_security_term).isSome)

/-- Model of grouped.size().max(): the largest group size of the masked
frame.  (On an empty frame pandas max() gives NaN and range(NaN) raises; the
model returns 0 layers there, and no claim concerns the empty case.) -/
def max_group_size (l : List AuctionRecord) : Nat :=
  ((keys_of auction_term l).map (fun t => (rows_of auction_term t l).length)).foldr
    max 0

/-- Model of one iteration of the wrapper loop: the i-th row of each group
that still has an i-th row, sorted by numeric tenor ascending. -/
def layer (i : Nat) (l : List AuctionRecord) : List AuctionRecord :=
  sort_by tenor_le_rec
    ((keys_of auction_term l).filterMap (fun t => (rows_of auction_term t l)[i]?))

/-- Model of get_last_n_off_the_run_cusips (records form, filtered=False):
one layer per rank level up to the largest group size. -/
def get_last_n_off_the_run_cusips (n : Nat) (current_date : Int)
    (records : List AuctionRecord) : List (List AuctionRecord) :=
  (List.range (max_group_size (masked_result n current_date records))).map
    (fun i => layer i (masked_result n current_date records))

/-- Stated from the spec's words, for comparison with the code: off-the-run
rank k of a term group is the k-th most recent issue_date of the group
excluding the on-the-run record, i.e. position k of the group of the
issue-date-descending filtered frame. -/
def spec_off_the_run_rank (k : Nat) (t : String) (current_date : Int)
    (records : List AuctionRecord) : Option AuctionRecord :=
  (rows_of auction_term t (sorted_auctions current_date records))[k]?

/-! ### get_on_the_run_cusips (treasurydirect securities/auctioned) -/

/-- One security object of the on-the-run securities API; secType is the
field named type in the JSON. -/
structure SecurityRecord where
  secType : String
  originalSecurityTerm : String
  securityTerm : String
  cusip : String
  auctionDate : Int
  issueDate : Int
deriving DecidableEq, Repr

/-- Comparison used by sort_values on issueDate with ascending=False. -/
def issueDate_desc (a b : SecurityRecord) : Bool := decide (b.issueDate ≤ a.issueDate)

/-- Model of get_on_the_run_cusips on a successfully fetched security list:
drop TIPS/FRN/CMB types and reopened bills, sort by issueDate descending,
take the first row of each originalSecurityTerm group. -/
def get_on_the_run_cusips (secs : List SecurityRecord) : List SecurityRecord :=
  groupby_first (fun r => r.originalSecurityTerm)
    (sort_by issueDate_desc
      ((secs.filter (fun r =>
          !(r.secType == "TIPS" || r.secType == "FRN" || r.secType == "CMB"))).filter
        (fun r => !(r.secType == "Bill" && r.originalSecurityTerm != r.securityTerm))))

/-! ### Nearest-Tenor Matcher (find_closest_dates) -/

/-- Python int() applied to a number: truncation toward zero, computed on
the reduced numerator and denominator. -/
def py_int (q : ℚ) : Int := Int.tdiv q.num (q.den : Int)

/-- Model of today + timedelta(days=int(year * 360)): the synthetic target
date of a fractional-year tenor, in the 360-day money-market convention with
the day count truncated toward zero by int(). -/
def target_date (today : Int) (year : ℚ) : Int := today + py_int (year * 360)

/-- The nearest integer to a rational, rounding half up: an executable form
of the floor of q + 1/2. -/
def rat_round (q : ℚ) : Int := (2 * q.num + (q.den : Int)) / ((2 * q.den : Nat) : Int)

/-- Stated from the spec's words, for comparison with the code: the target
date computed with round() instead of int(), i.e. today plus the nearest
integer to year times 360. -/
def spec_target_date (today : Int) (year : ℚ) : Int := today + rat_round (year * 360)

/-- Model of Python min(xs, key=k) over an already-materialised list: the
first element attaining the minimal key (min keeps the current candidate on
ties). none exactly when the list is empty, where Python raises ValueError. -/
def py_min_by {α β : Type} [LinearOrder β] (key : α → β) : List α → Option α
  | [] => none
  | a :: l =>
    match py_min_by key l with
    | none => some a
    | some b => if key a ≤ key b then some a else some b

/-- Model of df[col].idxmax followed by df.loc: the first row attaining the
maximal value of the column. none exactly when the frame is empty, where
pandas idxmax raises. -/
def py_idxmax_by {α β : Type} [LinearOrder β] (key : α → β) : List α → Option α
  | [] => none
  | a :: l =>
    match py_idxmax_by key l with
    | none => some a
    | some b => if key b ≤ key a then some a else some b

/-- The element a sits at a position k of l, its key is minimal over l, and
every earlier position has a strictly larger key: the first-encountered
minimiser. -/
def is_first_min {α β : Type} [LinearOrder β] (key : α → β) (l : List α) (a : α) : Prop :=
  ∃ k : Nat, l[k]? = some a ∧ (∀ x ∈ l, key a ≤ key x) ∧
    ∀ j x, j < k → l[j]? = some x → key a < key x

/-- Model of the objects branch of find_closest_dates: for each target year,
the pair of the closest object (by the caller-chosen date field date_val)
and the synthetic target date.  The branch is only taken when the objects
list is truthy, hence non-empty, so the filterMap never skips a year there. -/
def find_closest_dates_objects {α : Type} (today : Int) (years : List ℚ)
    (date_val : α → Int) (objects : List α) : List (α × Int) :=
  years.filterMap (fun y =>
    (py_min_by (fun o => (date_val o - target_date today y).natAbs) objects).map
      (fun o => (o, target_date today y)))

/-- One output row of the DataFrame branch of find_closest_dates: the
closest row together with the two annotation columns the branch assigns. -/
structure ClosestRow (α : Type) where
  row : α
  target_date_col : Int
  target_tenor_col : ℚ
deriving DecidableEq, Repr

/-- Model of the DataFrame branch of find_closest_dates: for each target
year, the first row minimising the absolute difference between the
caller-chosen date column and the synthetic target date (idxmin returns the
first occurrence of the minimum), annotated with target_date and
target_tenor. -/
def find_closest_dates_df {α : Type} (today : Int) (years : List ℚ)
    (date_val : α → Int) (rows : List α) : List (ClosestRow α) :=
  years.filterMap (fun y =>
    (py_min_by (fun r => (date_val r - target_date today y).natAbs) rows).map
      (fun r => ClosestRow.mk r (target_date today y) y))

/-! ### Per-Instrument Quote Fetcher (schwab_treasuries.py) -/

/-- One row of the extracted Schwab quote table, restricted to the cells the
fetcher reads; maturity is the parsed Maturity string as a day number. -/
structure QuoteRow where
  cusip : String
  estimated_total : ℚ
  maturity : Int
deriving DecidableEq, Repr

/-- The enriched best-quote dictionary built for one identifier. -/
structure BestQuote where
  row : QuoteRow
  tenor_key : Option String
  time_to_maturity : ℚ
deriving DecidableEq, Repr

/-- Model of fetch_from_schwab_treasury_cusip_search: response is the
outcome of the POST plus raise_for_status plus read_html plus taking table
0.  On any failure (HTTP error status, parse exception, timeout, or idxmax
raising on an empty table) the except-blocks return the empty dict,
modelled as none.  Otherwise the row with the largest Estimated Total is
selected, the id_key is attached when given, and time-to-maturity in years
is derived from the parsed maturity and the reference date with the 365-day
divisor of the source. -/
def fetch_from_schwab_treasury_cusip_search (today : Int) (id_key : Option String)
    (response : Except PyErr (List QuoteRow)) : Option BestQuote :=
  match response with
  | .error _ => none
  | .ok rows =>
    match py_idxmax_by (fun r => r.estimated_total) rows with
    | none => none
    | some best =>
      some (BestQuote.mk best id_key (((best.maturity - today : Int) : ℚ) / 365))

/-- Model of run_fetch_all of schwab_treasury_cusip_search over a dict of
target-tenor label to cusip: one task per entry, gathered; each task's
value is its own fetch outcome and nothing else. -/
def run_fetch_all_schwab (today : Int) (responses : String → Except PyErr (List QuoteRow))
    (cusips : List (String × String)) : List (Option BestQuote) :=
  cusips.map (fun tc =>
    fetch_from_schwab_treasury_cusip_search today (some tc.fst) (responses tc.snd))

/-! ### fetch_historical_prices (src/fetch_treasuries.py) -/

/-- One row of the FedInvest price table, restricted to its CUSIP key. -/
structure PriceRow where
  cusip : String
  priceValue : ℚ
deriving DecidableEq, Repr

/-- Model of fetch_prices_from_treasury_date_search: response is the outcome
of the POST plus raise_for_status plus read_html plus taking table 0.  On
failure the handlers return the date paired with an empty frame.  On
success, the missing-CUSIP report iterates over the cusips argument: when
it is None this raises a TypeError, caught by the generic handler, so the
task yields the empty frame; when cusips is a non-empty list the table is
restricted to it, and an empty cusips list is falsy so the table is kept
whole. -/
def fetch_prices_from_treasury_date_search (cusips : Option (List String))
    (date : Int) (response : Except PyErr (List PriceRow)) : Int × List PriceRow :=
  match response with
  | .error _ => (date, [])
  | .ok tbl =>
    match cusips with
    | none => (date, [])
    | some cs => (date, if cs.isEmpty then tbl else tbl.filter (fun r => cs.contains r.cusip))

/-- Model of run_fetch_all of fetch_historical_prices: one task per date,
gathered; every task catches its own failures, so gather receives only
successful coroutines and returns one keyed pair per date in task order. -/
def run_fetch_all_prices (cusips : Option (List String))
    (responses : Int → Except PyErr (List PriceRow)) (dates : List Int) :
    List (Int × List PriceRow) :=
  dates.map (fun d => fetch_prices_from_treasury_date_search cusips d (responses d))

/-- Model of fetch_historical_prices: the gathered keyed pairs; dict(bonds)
turns them into the returned mapping, one entry per distinct date. -/
def fetch_historical_prices (dates : List Int) (cusips : Option (List String))
    (responses : Int → Except PyErr (List PriceRow)) : List (Int × List PriceRow) :=
  run_fetch_all_prices cusips responses dates

/-! ### Concrete auction data used to separate the resolver from the spec's
rank rule.  Six records, two term groups; all filters pass.  The records at
input positions 0 and 1 are the two most recent issues, so with two term
groups the index-based row exclusion removes exactly the two on-the-run
rows from the off-the-run pool. -/

/-- 2-Year note, most recent issue (on-the-run of its group). -/
def ex_rec_a : AuctionRecord := AuctionRecord.mk 0 "A" "Note" "2-Year" "2-Year" 1 10

/-- 3-Year note, most recent issue (on-the-run of its group). -/
def ex_rec_b : AuctionRecord := AuctionRecord.mk 1 "B" "Note" "3-Year" "3-Year" 1 9

/-- 2-Year note, second most recent issue of its group. -/
def ex_rec_c : AuctionRecord := AuctionRecord.mk 2 "C" "Note" "2-Year" "2-Year" 1 8

/-- 2-Year note, third most recent issue of its group. -/
def ex_rec_d : AuctionRecord := AuctionRecord.mk 3 "D" "Note" "2-Year" "2-Year" 1 6

/-- 3-Year note, second most recent issue of its group. -/
def ex_rec_e : AuctionRecord := AuctionRecord.mk 4 "E" "Note" "3-Year" "3-Year" 1 7

/-- 3-Year note, third most recent issue of its group. -/
def ex_rec_f : AuctionRecord := AuctionRecord.mk 5 "F" "Note" "3-Year" "3-Year" 1 5

/-- The six-record input set. -/
def ex_records : List AuctionRecord :=
  [ex_rec_a, ex_rec_b, ex_rec_c, ex_rec_d, ex_rec_e, ex_rec_f]

/-- A page environment where every page fetch succeeds with one record. -/
def ex_pages_ok : Nat → Except PyErr (List Nat) := fun u => Except.ok [u]

/-- A page environment where every page fetch times out. -/
def ex_pages_fail : Nat → Except PyErr (List Nat) := fun _ => Except.error PyErr.timedOut

/-- Two quote rows for one identifier with estimated totals 100 and 150. -/
def ex_quote_small : QuoteRow := QuoteRow.mk "91282CAA1" 100 500

/-- The larger-depth quote row of the pair. -/
def ex_quote_large : QuoteRow := QuoteRow.mk "91282CAA1" 150 500

/-! ## Helper lemmas -/

theorem gather_results_all_ok {α β : Type} (l : List β) (pd : β → Except PyErr α)
    (f : β → α) (h : ∀ x ∈ l, pd x = Except.ok (f x)) :
    gather_results (l.map pd) = Except.ok (l.map f) := by
  induction l with
  | nil => rfl
  | cons a t ih =>
    have ha := h a (List.mem_cons_self a t)
    have ht := ih (fun x hx => h x (List.mem_cons_of_mem a hx))
    simp only [List.map_cons, gather_results, ha, ht]

theorem gather_results_has_error {α : Type} (ts : List (Except PyErr α))
    (h : ∃ t ∈ ts, is_error t = true) : is_error (gather_results ts) = true := by
  induction ts with
  | nil => simp at h
  | cons a t ih =>
    rcases h with ⟨x, hx, hxe⟩
    rcases List.mem_cons.mp hx with rfl | hxt
    · cases x with
      | ok v => simp [is_error] at hxe
      | error e => cases hg : gather_results t <;> simp [gather_results, hg, is_error]
    · have := ih ⟨x, hxt, hxe⟩
      cases a with
      | ok v =>
        cases hg : gather_results t with
        | ok vs => rw [hg] at this; simp [is_error] at this
        | error e => simp [gather_results, hg, is_error]
      | error e => simp [gather_results, is_error]

theorem is_error_map {ε α β : Type} (e : Except ε α) (g : α → β) :
    is_error (e.map g) = is_error e := by
  cases e <;> rfl

/-! ## Claims about the Pagination Sizer and the Auction History Resolver -/

/-- C3: for every positive total_count reported by the probe, the sizer
generates exactly ceil(total_count / MAX_PAGE_SIZE) page URLs, numbered
consecutively from page 1, with page_size * (n_pages - 1) < total_count and
total_count at most page_size * n_pages, covering all records with no gaps
and no duplicates. -/
theorem c3_pagination_sizing (total_count : Nat) (h : 0 < total_count) :
    ∃ pages : List Nat,
      get_treasury_query_sizing (some total_count) = some pages ∧
      pages.length = number_requests total_count ∧
      (∀ i : Nat, i < pages.length → pages[i]? = some (i + 1)) ∧
      MAX_TREASURY_GOV_API_CONTENT_SIZE * (pages.length - 1) < total_count ∧
      total_count ≤ MAX_TREASURY_GOV_API_CONTENT_SIZE * pages.length := by
  refine ⟨(List.range (number_requests total_count)).map (fun i => i + 1), rfl, by simp, ?_, ?_, ?_⟩
  · intro i hi
    simp only [List.length_map, List.length_range] at hi
    simp [List.getElem?_map, List.getElem?_range, hi]
  · simp only [List.length_map, List.length_range]
    have hdm := Nat.div_add_mod (total_count + 9999) 10000
    have hm : (total_count + 9999) % 10000 < 10000 := Nat.mod_lt _ (by norm_num)
    simp only [number_requests, MAX_TREASURY_GOV_API_CONTENT_SIZE]
    omega
  · simp only [List.length_map, List.length_range]
    have hdm := Nat.div_add_mod (total_count + 9999) 10000
    have hm : (total_count + 9999) % 10000 < 10000 := Nat.mod_lt _ (by norm_num)
    simp only [number_requests, MAX_TREASURY_GOV_API_CONTENT_SIZE]
    omega

theorem c3_pagination_sizing_witness :
    0 < 25000 ∧
    ∃ pages : List Nat,
      get_treasury_query_sizing (some 25000) = some pages ∧
      pages.length = number_requests 25000 ∧
      (∀ i : Nat, i < pages.length → pages[i]? = some (i + 1)) ∧
      MAX_TREASURY_GOV_API_CONTENT_SIZE * (pages.length - 1) < 25000 ∧
      25000 ≤ MAX_TREASURY_GOV_API_CONTENT_SIZE * pages.length :=
  ⟨by decide, c3_pagination_sizing 25000 (by decide)⟩

/-- C4 counterexample: when the probe fails, the sizer yields None and the
resolver raises a TypeError while iterating it, so the resolution does not
return an empty record set (or any record set at all). -/
theorem c4_counterexample :
    get_treasury_query_sizing none = none ∧
    get_historical_treasury_auctions (α := Nat) none (fun _ => Except.ok []) =
      Except.error PyErr.typeError ∧
    get_historical_treasury_auctions (α := Nat) none (fun _ => Except.ok []) ≠
      Except.ok [] := by
  exact ⟨rfl, rfl, by decide⟩

/-- C4 amended: if the probe request fails, the sizer yields no URL list
(None) and the Auction History Resolver raises a TypeError when the task
list comprehension iterates over None; it does not return an empty record
set. -/
theorem c4_amended (α : Type) (page_data : Nat → Except PyErr (List α)) :
    get_treasury_query_sizing none = none ∧
    get_historical_treasury_auctions none page_data = Except.error PyErr.typeError ∧
    ∀ l : List α, get_historical_treasury_auctions none page_data ≠ Except.ok l := by
  exact ⟨rfl, rfl, fun l h => by simp [get_historical_treasury_auctions, get_treasury_query_sizing] at h⟩

/-- C1 counterexample: with two pages where page 1 fails to parse and page 2
succeeds with one record, the resolver propagates the exception instead of
returning the surviving page's records. -/
theorem c1_counterexample :
    get_historical_treasury_auctions (some 15000)
        (fun u => if u = 1 then Except.error PyErr.parseError else Except.ok [7]) =
      Except.error PyErr.parseError ∧
    get_historical_treasury_auctions (some 15000)
        (fun u => if u = 1 then Except.error PyErr.parseError else Except.ok [7]) ≠
      Except.ok [7] := by decide

/-- C1 amended: the per-page fetch of the Auction History Resolver has no
exception handling, so the failure of any page propagates through
asyncio.gather and fails the whole resolution; only when every page
succeeds are the pages' records concatenated in page order. -/
theorem c1_amended {α : Type} (total_count : Nat) (page_data : Nat → Except PyErr (List α)) :
    ((∃ l ∈ (List.range (number_requests total_count)).map (fun i => i + 1),
        is_error (page_data l) = true) →
      is_error (get_historical_treasury_auctions (some total_count) page_data) = true) ∧
    (∀ f : Nat → List α,
      (∀ l ∈ (List.range (number_requests total_count)).map (fun i => i + 1),
        page_data l = Except.ok (f l)) →
      get_historical_treasury_auctions (some total_count) page_data =
        Except.ok (((List.range (number_requests total_count)).map (fun i => i + 1)).map f).flatten) := by
  constructor
  · intro h
    rcases h with ⟨l, hl, he⟩
    show is_error ((gather_results _).map List.flatten) = true
    rw [is_error_map]
    exact gather_results_has_error _ ⟨page_data l, List.mem_map_of_mem page_data hl, he⟩
  · intro f hf
    show (gather_results _).map List.flatten = _
    rw [gather_results_all_ok _ page_data f hf]
    rfl

theorem c1_amended_witness :
    ((∃ l ∈ (List.range (number_requests 25000)).map (fun i => i + 1),
        is_error (ex_pages_fail l) = true) ∧
      is_error (get_historical_treasury_auctions (some 25000) ex_pages_fail) = true) ∧
    ((∀ l ∈ (List.range (number_requests 25000)).map (fun i => i + 1),
        ex_pages_ok l = Except.ok [l]) ∧
      get_historical_treasury_auctions (some 25000) ex_pages_ok = Except.ok [1, 2, 3]) :=
  ⟨⟨by decide, (c1_amended 25000 ex_pages_fail).1 (by decide)⟩,
   ⟨by decide, ((c1_amended 25000 ex_pages_ok).2 (fun u => [u]) (by decide)).trans (by decide)⟩⟩

/-! ## Claims about fetch_historical_prices -/

/-- C10: when fetch_historical_prices is called with cusips omitted (None),
building the missing-CUSIP report iterates over None and raises, which the
generic per-task handler converts to the empty result, so every requested
date maps to an empty table even when the HTTP fetch and table extraction
succeed. -/
theorem c10_none_cusips (dates : List Int) (responses : Int → Except PyErr (List PriceRow)) :
    fetch_historical_prices dates none responses = dates.map (fun d => (d, [])) ∧
    ∀ d tbl, fetch_prices_from_treasury_date_search none d (Except.ok tbl) = (d, []) := by
  constructor
  · unfold fetch_historical_prices run_fetch_all_prices
    apply List.map_congr_left
    intro d _
    cases responses d <;> rfl
  · intro d tbl
    rfl

/-! ## Properties of py_min_by and py_idxmax_by -/

theorem py_min_by_eq_none_iff {α β : Type} [LinearOrder β] (key : α → β) (l : List α) :
    py_min_by key l = none ↔ l = [] := by
  cases l with
  | nil => simp [py_min_by]
  | cons a t =>
    simp only [py_min_by]
    cases py_min_by key t with
    | none => simp
    | some b =>
      by_cases hab : key a ≤ key b <;> simp [hab]

theorem py_min_by_is_first_min {α β : Type} [LinearOrder β] (key : α → β)
    (l : List α) (a : α) (h : py_min_by key l = some a) : is_first_min key l a := by
  induction l generalizing a with
  | nil => simp [py_min_by] at h
  | cons x t ih =>
    simp only [py_min_by] at h
    cases hrec : py_min_by key t with
    | none =>
      simp only [hrec, Option.some_inj] at h
      subst h
      have ht : t = [] := (py_min_by_eq_none_iff key t).mp hrec
      subst ht
      refine ⟨0, by simp, ?_, ?_⟩
      · intro z hz
        rcases List.mem_singleton.mp hz with rfl
        exact le_refl _
      · intro j z hj hjz
        omega
    | some b =>
      simp only [hrec] at h
      rcases ih b hrec with ⟨k, hk, hmin, hfirst⟩
      by_cases hab : key x ≤ key b
      · rw [if_pos hab, Option.some_inj] at h
        subst h
        refine ⟨0, by simp, ?_, ?_⟩
        · intro z hz
          rcases List.mem_cons.mp hz with rfl | hz
          · exact le_refl _
          · exact le_trans hab (hmin z hz)
        · intro j z hj hjz
          omega
      · rw [if_neg hab, Option.some_inj] at h
        subst h
        push_neg at hab
        refine ⟨k + 1, by simpa using hk, ?_, ?_⟩
        · intro z hz
          rcases List.mem_cons.mp hz with rfl | hz
          · exact le_of_lt hab
          · exact hmin z hz
        · intro j z hj hjz
          cases j with
          | zero =>
            simp only [List.getElem?_cons_zero, Option.some_inj] at hjz
            subst hjz
            exact hab
          | succ j =>
            simp only [List.getElem?_cons_succ] at hjz
            exact hfirst j z (by omega) hjz

theorem py_idxmax_by_eq_none_iff {α β : Type} [LinearOrder β] (key : α → β) (l : List α) :
    py_idxmax_by key l = none ↔ l = [] := by
  cases l with
  | nil => simp [py_idxmax_by]
  | cons a t =>
    simp only [py_idxmax_by]
    cases py_idxmax_by key t with
    | none => simp
    | some b =>
      by_cases hab : key b ≤ key a <;> simp [hab]

theorem py_idxmax_by_spec {α β : Type} [LinearOrder β] (key : α → β)
    (l : List α) (a : α) (h : py_idxmax_by key l = some a) :
    a ∈ l ∧ ∀ x ∈ l, key x ≤ key a := by
  induction l generalizing a with
  | nil => simp [py_idxmax_by] at h
  | cons x t ih =>
    simp only [py_idxmax_by] at h
    cases hrec : py_idxmax_by key t with
    | none =>
      simp only [hrec, Option.some_inj] at h
      subst h
      have ht : t = [] := (py_idxmax_by_eq_none_iff key t).mp hrec
      subst ht
      refine ⟨List.mem_singleton_self _, ?_⟩
      intro z hz
      rcases List.mem_singleton.mp hz with rfl
      exact le_refl _
    | some b =>
      simp only [hrec] at h
      rcases ih b hrec with ⟨hbmem, hbmax⟩
      by_cases hab : key b ≤ key x
      · rw [if_pos hab, Option.some_inj] at h
        subst h
        refine ⟨List.mem_cons_self _ _, ?_⟩
        intro z hz
        rcases List.mem_cons.mp hz with rfl | hz
        · exact le_refl _
        · exact le_trans (hbmax z hz) hab
      · rw [if_neg hab, Option.some_inj] at h
        subst h
        push_neg at hab
        refine ⟨List.mem_cons_of_mem _ hbmem, ?_⟩
        intro z hz
        rcases List.mem_cons.mp hz with rfl | hz
        · exact le_of_lt hab
        · exact hbmax z hz

/-! ## Claims about the Nearest-Tenor Matcher -/

theorem py_int_eq_floor (q : ℚ) (hq : 0 ≤ q) : py_int q = ⌊q⌋ := by
  have hnum : 0 ≤ q.num := Rat.num_nonneg.mpr hq
  rw [py_int, Int.tdiv_eq_ediv hnum (by positivity), Rat.floor_def]

theorem rat_round_eq_floor (q : ℚ) : rat_round q = ⌊q + 1/2⌋ := by
  have hden : ((q.den : ℚ)) ≠ 0 := Nat.cast_ne_zero.mpr q.den_nz
  have key : q + 1/2 = (((2 * q.num + (q.den : Int) : Int) : ℚ)) / (((2 * q.den : Nat) : ℚ)) := by
    nth_rewrite 1 [← Rat.num_div_den q]
    push_cast
    field_simp
    ring
  rw [key, Rat.floor_intCast_div_natCast, rat_round]

theorem floor_add_half (q : ℚ) (hf : Int.fract q < 1/2) : ⌊q + 1/2⌋ = ⌊q⌋ := by
  rw [Int.floor_eq_iff]
  constructor
  · have := Int.floor_le q
    linarith
  · have := Int.self_sub_floor q
    linarith

/-- C7 counterexample: for the fractional-year target 999/1000 the code's
target date uses int(), i.e. truncation toward zero (giving 359 days), while
the claimed round() formula gives 360 days, so the claimed formula is not
followed exactly for every fractional-year target. -/
theorem c7_counterexample :
    target_date 0 (mkRat 999 1000) = 359 ∧
    spec_target_date 0 (mkRat 999 1000) = 360 ∧
    target_date 0 (mkRat 999 1000) ≠ spec_target_date 0 (mkRat 999 1000) := by decide

/-- C7 amended: the Nearest-Tenor Matcher computes the target's calendar
date as today + int(target_years * 360) days, int() truncating toward zero
(the floor, for the nonnegative year targets of the callers); this agrees
with the claimed round() form whenever the fractional part of
target_years * 360 is below one half, and for the concrete 1.0-year example
from today = 2025-01-01 (day 0) with candidates at 2025-01-01, 2026-01-01
and 2030-01-01 (days 0, 365, 1826), the 2026-01-01 record is selected. -/
theorem c7_amended (today : Int) (y : ℚ) (hy : 0 ≤ y) (hf : Int.fract (y * 360) < 1/2) :
    target_date today y = today + ⌊y * 360⌋ ∧
    target_date today y = spec_target_date today y ∧
    find_closest_dates_objects 0 [1] (fun d : Int => d) [0, 365, 1826] = [(365, 360)] := by
  have h1 : py_int (y * 360) = ⌊y * 360⌋ := py_int_eq_floor _ (by positivity)
  refine ⟨by rw [target_date, h1], ?_, by decide⟩
  rw [target_date, spec_target_date, h1, rat_round_eq_floor, floor_add_half _ hf]

theorem c7_amended_witness :
    (0 ≤ (1 : ℚ) ∧ Int.fract ((1 : ℚ) * 360) < 1/2) ∧
    (target_date 5 1 = 5 + ⌊(1 : ℚ) * 360⌋ ∧
      target_date 5 1 = spec_target_date 5 1 ∧
      find_closest_dates_objects 0 [1] (fun d : Int => d) [0, 365, 1826] = [(365, 360)]) :=
  ⟨⟨by norm_num, by norm_num [Int.fract]⟩, c7_amended 5 1 (by norm_num) (by norm_num [Int.fract])⟩

theorem find_closest_dates_df_spec {α : Type} (today : Int) (years : List ℚ)
    (date_val : α → Int) (rows : List α) (hne : rows ≠ []) :
    (find_closest_dates_df today years date_val rows).length = years.length ∧
    ∀ (i : Nat) (y : ℚ), years[i]? = some y →
      ∃ cr : ClosestRow α,
        (find_closest_dates_df today years date_val rows)[i]? = some cr ∧
        cr.target_tenor_col = y ∧ cr.target_date_col = target_date today y ∧
        is_first_min (fun r => (date_val r - target_date today y).natAbs) rows cr.row := by
  induction years with
  | nil => exact ⟨rfl, by intro i y h; simp at h⟩
  | cons y0 ys ih =>
    cases hm : py_min_by (fun r => (date_val r - target_date today y0).natAbs) rows with
    | none => exact absurd ((py_min_by_eq_none_iff _ _).mp hm) hne
    | some m =>
      have hstep : find_closest_dates_df today (y0 :: ys) date_val rows =
          ClosestRow.mk m (target_date today y0) y0 ::
            find_closest_dates_df today ys date_val rows := by
        simp [find_closest_dates_df, List.filterMap_cons, hm]
      rw [hstep]
      refine ⟨by simpa using ih.1, ?_⟩
      intro i y hy
      cases i with
      | zero =>
        simp only [List.getElem?_cons_zero, Option.some_inj] at hy
        subst hy
        exact ⟨ClosestRow.mk m (target_date today y0) y0, by simp, rfl, rfl,
          py_min_by_is_first_min _ _ m hm⟩
      | succ i =>
        simp only [List.getElem?_cons_succ] at hy ⊢
        exact ih.2 i y hy

theorem find_closest_dates_objects_spec {α : Type} (today : Int) (years : List ℚ)
    (date_val : α → Int) (objects : List α) (hne : objects ≠ []) :
    (find_closest_dates_objects today years date_val objects).length = years.length ∧
    ∀ (i : Nat) (y : ℚ), years[i]? = some y →
      ∃ o : α,
        (find_closest_dates_objects today years date_val objects)[i]? =
          some (o, target_date today y) ∧
        is_first_min (fun r => (date_val r - target_date today y).natAbs) objects o := by
  induction years with
  | nil => exact ⟨rfl, by intro i y h; simp at h⟩
  | cons y0 ys ih =>
    cases hm : py_min_by (fun r => (date_val r - target_date today y0).natAbs) objects with
    | none => exact absurd ((py_min_by_eq_none_iff _ _).mp hm) hne
    | some m =>
      have hstep : find_closest_dates_objects today (y0 :: ys) date_val objects =
          (m, target_date today y0) ::
            find_closest_dates_objects today ys date_val objects := by
        simp [find_closest_dates_objects, List.filterMap_cons, hm]
      rw [hstep]
      refine ⟨by simpa using ih.1, ?_⟩
      intro i y hy
      cases i with
      | zero =>
        simp only [List.getElem?_cons_zero, Option.some_inj] at hy
        subst hy
        exact ⟨m, by simp, py_min_by_is_first_min _ _ _ hm⟩
      | succ i =>
        simp only [List.getElem?_cons_succ] at hy ⊢
        exact ih.2 i y hy

/-- C8 counterexample: in the objects branch of find_closest_dates, two
different originating tenors (1 and 1441/1440) produce identical outputs on
the same candidate set, so the returned record is not annotated with the
originating numeric tenor there. -/
theorem c8_counterexample :
    find_closest_dates_objects 0 [1] (fun d : Int => d) [0] =
      find_closest_dates_objects 0 [mkRat 1441 1440] (fun d : Int => d) [0] ∧
    (1 : ℚ) ≠ mkRat 1441 1440 := by decide

/-- C8 amended: for every non-empty candidate set, every target and every
caller-chosen date field, find_closest_dates returns exactly one result per
target, namely the first record minimising the absolute difference between
the date field and the synthetic target date (ties broken in favour of the
first-encountered record); in the DataFrame branch the record is annotated
with both the synthetic target date and the originating numeric tenor,
while in the objects branch it is paired with the synthetic target date
only (the tenor is not part of the output). -/
theorem c8_amended {α : Type} (today : Int) (years : List ℚ) (date_val : α → Int)
    (rows : List α) (hne : rows ≠ []) :
    ((find_closest_dates_df today years date_val rows).length = years.length ∧
      ∀ (i : Nat) (y : ℚ), years[i]? = some y →
        ∃ cr : ClosestRow α,
          (find_closest_dates_df today years date_val rows)[i]? = some cr ∧
          cr.target_tenor_col = y ∧ cr.target_date_col = target_date today y ∧
          is_first_min (fun r => (date_val r - target_date today y).natAbs) rows cr.row) ∧
    ((find_closest_dates_objects today years date_val rows).length = years.length ∧
      ∀ (i : Nat) (y : ℚ), years[i]? = some y →
        ∃ o : α,
          (find_closest_dates_objects today years date_val rows)[i]? =
            some (o, target_date today y) ∧
          is_first_min (fun r => (date_val r - target_date today y).natAbs) rows o) :=
  ⟨find_closest_dates_df_spec today years date_val rows hne,
   find_closest_dates_objects_spec today years date_val rows hne⟩

theorem c8_amended_witness :
    ([10, 50] ≠ ([] : List Int)) ∧
    (((find_closest_dates_df 0 [2] (fun d : Int => d) [10, 50]).length = [(2 : ℚ)].length ∧
      ∀ (i : Nat) (y : ℚ), [(2 : ℚ)][i]? = some y →
        ∃ cr : ClosestRow Int,
          (find_closest_dates_df 0 [2] (fun d : Int => d) [10, 50])[i]? = some cr ∧
          cr.target_tenor_col = y ∧ cr.target_date_col = target_date 0 y ∧
          is_first_min (fun r => (r - target_date 0 y).natAbs) [10, 50] cr.row) ∧
      ((find_closest_dates_objects 0 [2] (fun d : Int => d) [10, 50]).length = [(2 : ℚ)].length ∧
        ∀ (i : Nat) (y : ℚ), [(2 : ℚ)][i]? = some y →
          ∃ o : Int,
            (find_closest_dates_objects 0 [2] (fun d : Int => d) [10, 50])[i]? =
              some (o, target_date 0 y) ∧
            is_first_min (fun r => (r - target_date 0 y).natAbs) [10, 50] o)) :=
  ⟨by decide, c8_amended 0 [2] (fun d : Int => d) [10, 50] (by decide)⟩

/-! ## Claims about the Per-Instrument Quote Fetcher -/

/-- C9: for every identifier whose quote fetch succeeds with a non-empty
extracted table, the fetcher selects the row maximising the Estimated Total
column (in particular the 150 row over the 100 row), and enriches it with a
time-to-maturity derived from the parsed maturity and the reference date. -/
theorem c9_best_quote (today : Int) (id_key : Option String) (rows : List QuoteRow)
    (hne : rows ≠ []) :
    ∃ b : BestQuote,
      fetch_from_schwab_treasury_cusip_search today id_key (Except.ok rows) = some b ∧
      b.row ∈ rows ∧
      (∀ r ∈ rows, r.estimated_total ≤ b.row.estimated_total) ∧
      b.tenor_key = id_key ∧
      b.time_to_maturity = ((b.row.maturity - today : Int) : ℚ) / 365 ∧
      (∀ r1 r2 : QuoteRow, r1.estimated_total = 100 → r2.estimated_total = 150 →
        ∀ b2 : BestQuote,
          fetch_from_schwab_treasury_cusip_search today id_key (Except.ok [r1, r2]) =
            some b2 → b2.row = r2) := by
  cases hm : py_idxmax_by (fun r => r.estimated_total) rows with
  | none => exact absurd ((py_idxmax_by_eq_none_iff _ _).mp hm) hne
  | some best =>
    rcases py_idxmax_by_spec _ _ _ hm with ⟨hmem, hmax⟩
    refine ⟨BestQuote.mk best id_key (((best.maturity - today : Int) : ℚ) / 365),
      by simp [fetch_from_schwab_treasury_cusip_search, hm], hmem, hmax, rfl, rfl, ?_⟩
    intro r1 r2 h1 h2 b2 hb2
    simp only [fetch_from_schwab_treasury_cusip_search, py_idxmax_by, h1, h2] at hb2
    rw [if_neg (by norm_num)] at hb2
    simp only [Option.some_inj] at hb2
    rw [← hb2]

theorem c9_best_quote_witness :
    ([ex_quote_small, ex_quote_large] ≠ ([] : List QuoteRow)) ∧
    ∃ b : BestQuote,
      fetch_from_schwab_treasury_cusip_search 0 (some "0.5")
          (Except.ok [ex_quote_small, ex_quote_large]) = some b ∧
      b.row ∈ [ex_quote_small, ex_quote_large] ∧
      (∀ r ∈ [ex_quote_small, ex_quote_large], r.estimated_total ≤ b.row.estimated_total) ∧
      b.tenor_key = some "0.5" ∧
      b.time_to_maturity = ((b.row.maturity - 0 : Int) : ℚ) / 365 ∧
      (∀ r1 r2 : QuoteRow, r1.estimated_total = 100 → r2.estimated_total = 150 →
        ∀ b2 : BestQuote,
          fetch_from_schwab_treasury_cusip_search 0 (some "0.5") (Except.ok [r1, r2]) =
            some b2 → b2.row = r2) :=
  ⟨by decide, c9_best_quote 0 (some "0.5") [ex_quote_small, ex_quote_large] (by decide)⟩

/-! ## Claim about the Concurrent Fetch Orchestrator -/

/-- C2: for every set of k fetch tasks (one per key of the caller's key
set), the orchestrator returns exactly k entries, one per submitted key in
task order; each entry is the populated or explicitly empty result of its
own task, a failing task (HTTP error, parse exception, timeout) yields the
empty result for its own key, and an entry depends only on its own task's
outcome, so one failure never removes or aborts a sibling entry.  Stated
for both orchestrator instances: fetch_historical_prices (keyed by date)
and schwab_treasury_cusip_search (keyed by tenor label and cusip). -/
theorem c2_fan_in_barrier (cusips : Option (List String))
    (responses : Int → Except PyErr (List PriceRow)) (dates : List Int)
    (today : Int) (qresponses : String → Except PyErr (List QuoteRow))
    (tasks : List (String × String)) :
    ((run_fetch_all_prices cusips responses dates).length = dates.length ∧
      ∀ (i : Nat) (d : Int), dates[i]? = some d →
        ∃ tbl, (run_fetch_all_prices cusips responses dates)[i]? = some (d, tbl) ∧
          (is_error (responses d) = true → tbl = []) ∧
          ∀ responses2 : Int → Except PyErr (List PriceRow), responses2 d = responses d →
            (run_fetch_all_prices cusips responses2 dates)[i]? = some (d, tbl)) ∧
    ((run_fetch_all_schwab today qresponses tasks).length = tasks.length ∧
      ∀ (i : Nat) (tc : String × String), tasks[i]? = some tc →
        (run_fetch_all_schwab today qresponses tasks)[i]? =
          some (fetch_from_schwab_treasury_cusip_search today (some tc.fst)
            (qresponses tc.snd)) ∧
        (is_error (qresponses tc.snd) = true →
          (run_fetch_all_schwab today qresponses tasks)[i]? = some none) ∧
        ∀ qresponses2 : String → Except PyErr (List QuoteRow),
          qresponses2 tc.snd = qresponses tc.snd →
          (run_fetch_all_schwab today qresponses2 tasks)[i]? =
            (run_fetch_all_schwab today qresponses tasks)[i]?) := by
  refine ⟨⟨by simp [run_fetch_all_prices], ?_⟩, ⟨by simp [run_fetch_all_schwab], ?_⟩⟩
  · intro i d hd
    refine ⟨(fetch_prices_from_treasury_date_search cusips d (responses d)).snd, ?_, ?_, ?_⟩
    · rw [run_fetch_all_prices, List.getElem?_map, hd]
      have hfst : (fetch_prices_from_treasury_date_search cusips d (responses d)).fst = d := by
        cases responses d <;> cases cusips <;> rfl
      simp only [Option.map_some', Option.some_inj]
      exact Prod.ext hfst rfl
    · intro he
      cases hr : responses d with
      | ok tb => rw [hr] at he; simp [is_error] at he
      | error e => simp [fetch_prices_from_treasury_date_search, hr]
    · intro responses2 h2
      rw [run_fetch_all_prices, List.getElem?_map, hd]
      have hfst : (fetch_prices_from_treasury_date_search cusips d (responses d)).fst = d := by
        cases responses d <;> cases cusips <;> rfl
      simp only [Option.map_some', Option.some_inj, h2]
      exact Prod.ext hfst rfl
  · intro i tc htc
    refine ⟨?_, ?_, ?_⟩
    · rw [run_fetch_all_schwab, List.getElem?_map, htc]
      rfl
    · intro he
      rw [run_fetch_all_schwab, List.getElem?_map, htc]
      cases hr : qresponses tc.snd with
      | ok tb => rw [hr] at he; simp [is_error] at he
      | error e => simp [fetch_from_schwab_treasury_cusip_search, hr]
    · intro qresponses2 h2
      rw [run_fetch_all_schwab, run_fetch_all_schwab, List.getElem?_map, List.getElem?_map, htc]
      simp only [Option.map_some', h2]

theorem c2_fan_in_barrier_witness :
    ((23 : Int), (5 : Int)) ∈ [((23 : Int), (5 : Int))] ∧
    (run_fetch_all_prices (some ["912810TZ1"]) (fun _ => Except.error PyErr.timedOut)
        [23, 42]).length = 2 ∧
    ∃ tbl, (run_fetch_all_prices (some ["912810TZ1"]) (fun _ => Except.error PyErr.timedOut)
        [23, 42])[0]? = some (23, tbl) ∧ tbl = [] := by
  refine ⟨by decide, ?_, ?_⟩
  · exact ((c2_fan_in_barrier (some ["912810TZ1"]) (fun _ => Except.error PyErr.timedOut)
      [23, 42] 0 (fun _ => Except.error PyErr.timedOut) []).1).1
  · rcases ((c2_fan_in_barrier (some ["912810TZ1"]) (fun _ => Except.error PyErr.timedOut)
      [23, 42] 0 (fun _ => Except.error PyErr.timedOut) []).1).2 0 23 (by decide) with
      ⟨tbl, hp, hemp, _⟩
    exact ⟨tbl, hp, hemp (by decide)⟩

/-! ## Properties of the sorting and grouping primitives -/

theorem ord_insert_perm {α : Type} (le : α → α → Bool) (a : α) (l : List α) :
    (ord_insert le a l).Perm (a :: l) := by
  induction l with
  | nil => exact List.Perm.refl _
  | cons b t ih =>
    by_cases h : le a b = true
    · simp [ord_insert, h]
    · simp only [ord_insert, h]
      rw [if_neg]
      · exact (ih.cons b).trans (List.Perm.swap a b t)
      · simp [h]

theorem sort_by_perm {α : Type} (le : α → α → Bool) (l : List α) :
    (sort_by le l).Perm l := by
  induction l with
  | nil => exact List.Perm.refl _
  | cons a t ih => exact (ord_insert_perm le a (sort_by le t)).trans (ih.cons a)

theorem mem_sort_by {α : Type} (le : α → α → Bool) (l : List α) (x : α) :
    x ∈ sort_by le l ↔ x ∈ l := (sort_by_perm le l).mem_iff

theorem pairwise_ord_insert {α : Type} (le : α → α → Bool)
    (htot : ∀ x y, le x y = true ∨ le y x = true)
    (htrans : ∀ x y z, le x y = true → le y z = true → le x z = true)
    (a : α) (l : List α) (h : l.Pairwise (fun x y => le x y = true)) :
    (ord_insert le a l).Pairwise (fun x y => le x y = true) := by
  induction l with
  | nil => simp [ord_insert]
  | cons b t ih =>
    rcases List.pairwise_cons.mp h with ⟨hb, ht⟩
    by_cases hab : le a b = true
    · simp only [ord_insert, if_pos hab]
      refine List.pairwise_cons.mpr ⟨?_, h⟩
      intro z hz
      rcases List.mem_cons.mp hz with rfl | hz
      · exact hab
      · exact htrans a b z hab (hb z hz)
    · simp only [ord_insert, if_neg hab]
      refine List.pairwise_cons.mpr ⟨?_, ih ht⟩
      intro z hz
      rcases List.mem_cons.mp ((ord_insert_perm le a t).mem_iff.mp hz) with rfl | h1
      · rcases htot z b with h2 | h2
        · exact absurd h2 hab
        · exact h2
      · exact hb z h1

theorem pairwise_sort_by {α : Type} (le : α → α → Bool)
    (htot : ∀ x y, le x y = true ∨ le y x = true)
    (htrans : ∀ x y z, le x y = true → le y z = true → le x z = true)
    (l : List α) : (sort_by le l).Pairwise (fun x y => le x y = true) := by
  induction l with
  | nil => simp [sort_by]
  | cons a t ih => exact pairwise_ord_insert le htot htrans a (sort_by le t) ih

theorem eq_of_perm_of_pairwise {α : Type} (r : α → α → Prop)
    (hasym : ∀ a b, r a b → r b a → False) :
    ∀ {l₁ l₂ : List α}, l₁.Perm l₂ → l₁.Pairwise r → l₂.Pairwise r → l₁ = l₂ := by
  intro l₁
  induction l₁ with
  | nil => intro l₂ hp _ _; exact (hp.nil_eq).symm ▸ rfl
  | cons a t₁ ih =>
    intro l₂ hp h₁ h₂
    cases l₂ with
    | nil => exact absurd hp.symm.nil_eq (by simp)
    | cons b t₂ =>
      rcases List.pairwise_cons.mp h₁ with ⟨ha, ht₁⟩
      rcases List.pairwise_cons.mp h₂ with ⟨hb, ht₂⟩
      have hab : a = b := by
        have hma : a ∈ b :: t₂ := hp.mem_iff.mp (List.mem_cons_self a t₁)
        rcases List.mem_cons.mp hma with h | h
        · exact h
        · have hmb : b ∈ a :: t₁ := hp.symm.mem_iff.mp (List.mem_cons_self b t₂)
          rcases List.mem_cons.mp hmb with h3 | h3
          · exact h3.symm
          · exact (hasym a b (ha b h3) (hb a h)).elim
      subst hab
      have htp : t₁.Perm t₂ := hp.cons_inv
      rw [ih htp ht₁ ht₂]

/-! ### Properties of the code-point string order -/

theorem char_toNat_inj {a b : Char} (h : a.toNat = b.toNat) : a = b := by
  have h2 := Char.ofNat_toNat a
  rw [h, Char.ofNat_toNat] at h2
  exact h2.symm

theorem chars_le_total : ∀ a b : List Char, chars_le a b = true ∨ chars_le b a = true := by
  intro a
  induction a with
  | nil => intro b; left; cases b <;> rfl
  | cons x xs ih =>
    intro b
    cases b with
    | nil => right; rfl
    | cons y ys =>
      simp only [chars_le, Bool.or_eq_true, Bool.and_eq_true, decide_eq_true_eq]
      rcases Nat.lt_trichotomy x.toNat y.toNat with h | h | h
      · left; left; exact h
      · rcases ih ys with h2 | h2
        · left; right; exact ⟨h, h2⟩
        · right; right; exact ⟨h.symm, h2⟩
      · right; left; exact h

theorem chars_le_trans : ∀ a b c : List Char,
    chars_le a b = true → chars_le b c = true → chars_le a c = true := by
  intro a
  induction a with
  | nil => intro b c _ _; rfl
  | cons x xs ih =>
    intro b c hab hbc
    cases b with
    | nil => simp [chars_le] at hab
    | cons y ys =>
      cases c with
      | nil => simp [chars_le] at hbc
      | cons z zs =>
        simp only [chars_le, Bool.or_eq_true, Bool.and_eq_true, decide_eq_true_eq] at hab hbc ⊢
        rcases hab with h1 | ⟨h1, h1t⟩ <;> rcases hbc with h2 | ⟨h2, h2t⟩
        · left; omega
        · left; omega
        · left; omega
        · right; exact ⟨by omega, ih ys zs h1t h2t⟩

theorem chars_le_antisymm : ∀ a b : List Char,
    chars_le a b = true → chars_le b a = true → a = b := by
  intro a
  induction a with
  | nil =>
    intro b _ hba
    cases b with
    | nil => rfl
    | cons y ys => simp [chars_le] at hba
  | cons x xs ih =>
    intro b hab hba
    cases b with
    | nil => simp [chars_le] at hab
    | cons y ys =>
      simp only [chars_le, Bool.or_eq_true, Bool.and_eq_true, decide_eq_true_eq] at hab hba
      rcases hab with h1 | ⟨h1, h1t⟩ <;> rcases hba with h2 | ⟨h2, h2t⟩
      · omega
      · omega
      · omega
      · rw [char_toNat_inj h1, ih ys h1t h2t]

theorem str_le_total (a b : String) : str_le a b = true ∨ str_le b a = true :=
  chars_le_total a.data b.data

theorem str_le_trans (a b c : String) (hab : str_le a b = true) (hbc : str_le b c = true) :
    str_le a c = true := chars_le_trans a.data b.data c.data hab hbc

theorem str_le_antisymm (a b : String) (hab : str_le a b = true)
    (hba : str_le b a = true) : a = b :=
  String.ext (chars_le_antisymm a.data b.data hab hba)

/-! ### Properties of keys_of, rows_of and groupby_first -/

theorem mem_rows_of {α : Type} (key : α → String) (t : String) (l : List α) (x : α) :
    x ∈ rows_of key t l ↔ x ∈ l ∧ key x = t := by
  simp [rows_of, List.mem_filter]

theorem keys_of_nodup {α : Type} (key : α → String) (l : List α) :
    (keys_of key l).Nodup :=
  ((sort_by_perm str_le _).nodup_iff).mpr (List.nodup_dedup _)

theorem mem_keys_of {α : Type} (key : α → String) (l : List α) (t : String) :
    t ∈ keys_of key l ↔ ∃ x ∈ l, key x = t := by
  rw [keys_of, mem_sort_by, List.mem_dedup]
  simp [eq_comm]

theorem rows_of_eq_nil_of_not_mem_keys {α : Type} (key : α → String) (l : List α)
    (t : String) (h : t ∉ keys_of key l) : rows_of key t l = [] := by
  rw [rows_of, List.filter_eq_nil_iff]
  intro x hx
  intro hbeq
  exact h ((mem_keys_of key l t).mpr ⟨x, hx, by simpa using hbeq⟩)

theorem mem_groupby_first {α : Type} (key : α → String) (l : List α) (x : α)
    (h : x ∈ groupby_first key l) : x ∈ l := by
  rcases List.mem_filterMap.mp h with ⟨t, _, hh⟩
  have := List.mem_of_mem_head? hh
  exact ((mem_rows_of key t l x).mp this).1

theorem head?_toList_eq_take_one {α : Type} (l : List α) :
    l.head?.toList = l.take 1 := by
  cases l <;> rfl

theorem filter_filterMap_by_key {α : Type} (key : α → String) (f : String → Option α)
    (hf : ∀ u a, f u = some a → key a = u) (t : String) :
    ∀ keys : List String, keys.Nodup →
      (keys.filterMap f).filter (fun r => key r == t) =
        if t ∈ keys then (f t).toList else [] := by
  intro keys
  induction keys with
  | nil => intro _; simp
  | cons u ks ih =>
    intro hnd
    rcases List.nodup_cons.mp hnd with ⟨hu, hks⟩
    cases hfu : f u with
    | none =>
      rw [List.filterMap_cons_none hfu, ih hks]
      by_cases htu : t = u
      · subst htu
        rw [if_neg hu, if_pos (List.mem_cons_self t ks), hfu]
        rfl
      · simp [List.mem_cons, htu]
    | some a =>
      have hka : key a = u := hf u a hfu
      rw [List.filterMap_cons_some hfu, List.filter_cons]
      by_cases htu : t = u
      · subst htu
        rw [if_pos (by simp [hka]), ih hks, if_neg hu, if_pos (List.mem_cons_self t ks), hfu]
        rfl
      · rw [if_neg (by simp [hka]; exact fun h => htu h.symm), ih hks]
        simp [List.mem_cons, htu]

theorem filter_flatMap_by_key {α : Type} (key : α → String) (g : String → List α)
    (hg : ∀ u a, a ∈ g u → key a = u) (t : String) :
    ∀ keys : List String, keys.Nodup →
      (keys.flatMap g).filter (fun r => key r == t) = if t ∈ keys then g t else [] := by
  intro keys
  induction keys with
  | nil => intro _; simp
  | cons u ks ih =>
    intro hnd
    rcases List.nodup_cons.mp hnd with ⟨hu, hks⟩
    rw [List.flatMap_cons, List.filter_append, ih hks]
    by_cases htu : t = u
    · subst htu
      rw [if_neg hu, if_pos (List.mem_cons_self t ks)]
      have hgt : (g t).filter (fun r => key r == t) = g t := by
        rw [List.filter_eq_self]
        intro a ha
        simp [hg t a ha]
      rw [hgt, List.append_nil]
    · have hgu : (g u).filter (fun r => key r == t) = [] := by
        rw [List.filter_eq_nil_iff]
        intro a ha hbeq
        have h1 : key a = t := by simpa using hbeq
        rw [hg u a ha] at h1
        exact htu h1.symm
      rw [hgu, List.nil_append]
      simp [List.mem_cons, htu]

/-! ### Totality and transitivity of the resolver's comparisons -/

theorem issue_desc_total : ∀ a b : AuctionRecord,
    issue_desc a b = true ∨ issue_desc b a = true := by
  intro a b
  simp only [issue_desc, decide_eq_true_eq]
  omega

theorem issue_desc_trans : ∀ a b c : AuctionRecord,
    issue_desc a b = true → issue_desc b c = true → issue_desc a c = true := by
  intro a b c
  simp only [issue_desc, decide_eq_true_eq]
  omega

theorem term_issue_le_total : ∀ a b : AuctionRecord,
    term_issue_le a b = true ∨ term_issue_le b a = true := by
  intro a b
  by_cases h : a.original_security_term = b.original_security_term
  · rw [term_issue_le, term_issue_le, if_pos (by simp [h]), if_pos (by simp [h])]
    simp only [decide_eq_true_eq]
    omega
  · rw [term_issue_le, term_issue_le, if_neg (by simp [h]),
      if_neg (by simp only [beq_iff_eq]; exact fun hh => h hh.symm)]
    exact str_le_total _ _

theorem term_issue_le_trans : ∀ a b c : AuctionRecord,
    term_issue_le a b = true → term_issue_le b c = true → term_issue_le a c = true := by
  intro a b c hab hbc
  by_cases h1 : a.original_security_term = b.original_security_term <;>
    by_cases h2 : b.original_security_term = c.original_security_term
  · rw [term_issue_le, if_pos (by simp [h1])] at hab
    rw [term_issue_le, if_pos (by simp [h2])] at hbc
    rw [term_issue_le, if_pos (by simp [h1.trans h2]), decide_eq_true_eq]
    simp only [decide_eq_true_eq] at hab hbc
    omega
  · rw [term_issue_le, if_neg (by simp [h2])] at hbc
    have hac : a.original_security_term ≠ c.original_security_term := h1 ▸ h2
    rw [term_issue_le, if_neg (by simp [hac]), h1]
    exact hbc
  · rw [term_issue_le, if_neg (by simp [h1])] at hab
    have hac : a.original_security_term ≠ c.original_security_term := fun hh => h1 (hh.trans h2.symm)
    rw [term_issue_le, if_neg (by simp [hac]), ← h2]
    exact hab
  · rw [term_issue_le, if_neg (by simp [h1])] at hab
    rw [term_issue_le, if_neg (by simp [h2])] at hbc
    have hac : a.original_security_term ≠ c.original_security_term := by
      intro hh
      exact h1 (str_le_antisymm _ _ hab (hh ▸ hbc))
    rw [term_issue_le, if_neg (by simp [hac])]
    exact str_le_trans _ _ _ hab hbc

theorem tenor_le_rec_total : ∀ a b : AuctionRecord,
    tenor_le_rec a b = true ∨ tenor_le_rec b a = true := by
  intro a b
  simp only [tenor_le_rec, decide_eq_true_eq]
  exact le_total _ _

theorem tenor_le_rec_trans : ∀ a b c : AuctionRecord,
    tenor_le_rec a b = true → tenor_le_rec b c = true → tenor_le_rec a c = true := by
  intro a b c
  simp only [tenor_le_rec, decide_eq_true_eq]
  exact le_trans

/-! ### The shape of the group of one mapped term in the resolver's output -/

theorem layer_pairwise_tenor (i : Nat) (l : List AuctionRecord) :
    (layer i l).Pairwise (fun a b => tenor_value a ≤ tenor_value b) := by
  have h := pairwise_sort_by tenor_le_rec tenor_le_rec_total tenor_le_rec_trans
    ((keys_of auction_term l).filterMap (fun t => (rows_of auction_term t l)[i]?))
  exact h.imp (by intro a b hh; simpa [tenor_le_rec] using hh)

theorem sorted_auctions_pairwise (current_date : Int) (records : List AuctionRecord) :
    (sorted_auctions current_date records).Pairwise
      (fun a b => b.issue_date ≤ a.issue_date) := by
  have h := pairwise_sort_by issue_desc issue_desc_total issue_desc_trans
    (filtered_auctions current_date records)
  exact h.imp (by intro a b hh; simpa [issue_desc] using hh)

theorem sorted_auctions_pairwise_strict (current_date : Int) (records : List AuctionRecord)
    (hdist : (filtered_auctions current_date records).Pairwise
      (fun a b => a.issue_date ≠ b.issue_date)) :
    (sorted_auctions current_date records).Pairwise
      (fun a b => b.issue_date < a.issue_date) := by
  have hle := sorted_auctions_pairwise current_date records
  have hne : (sorted_auctions current_date records).Pairwise
      (fun a b => a.issue_date ≠ b.issue_date) := by
    refine (List.Perm.pairwise_iff ?_ (sort_by_perm issue_desc _)).mpr hdist
    intro x y hxy
    exact hxy.symm
  exact (hle.and hne).imp (by rintro a b ⟨h1, h2⟩; omega)

theorem rows_of_pool_eq (gg : Nat) (s : List AuctionRecord) (t : String) :
    rows_of auction_term t (off_the_run_pool gg s) =
      (rows_of auction_term t s).filter (fun r => !decide (r.idx < gg)) := by
  rw [rows_of, rows_of, off_the_run_pool, List.filter_filter, List.filter_filter]
  apply List.filter_congr
  intro r _
  rw [Bool.and_comm]

theorem code_group_sublist (A : List AuctionRecord) (p : AuctionRecord → Bool) (n : Nat) :
    (A.take 1 ++ ((A.filter p).drop 1).take n).Sublist A := by
  cases A with
  | nil => simp
  | cons h rest =>
    rw [List.filter_cons]
    by_cases hp : p h = true
    · rw [if_pos hp]
      show (h :: ((h :: rest.filter p).drop 1).take n).Sublist (h :: rest)
      refine List.Sublist.cons₂ h ?_
      simp only [List.drop_succ_cons, List.drop_zero]
      exact (List.take_sublist n _).trans (List.filter_sublist rest)
    · rw [if_neg hp]
      show (h :: ((rest.filter p).drop 1).take n).Sublist (h :: rest)
      refine List.Sublist.cons₂ h ?_
      exact ((List.take_sublist n _).trans (List.drop_sublist 1 _)).trans
        (List.filter_sublist rest)

theorem on_the_run_filter_eq (s : List AuctionRecord) (t : String)
    (ht : t ∈ keys_of auction_term s) :
    (on_the_run_result s).filter (fun r => auction_term r == t) =
      (rows_of auction_term t s).take 1 := by
  rw [on_the_run_result, groupby_first,
    filter_filterMap_by_key auction_term (fun u => (rows_of auction_term u s).head?)
      (by
        intro u a ha
        exact ((mem_rows_of auction_term u s a).mp (List.mem_of_mem_head? ha)).2)
      t (keys_of auction_term s) (keys_of_nodup _ _),
    if_pos ht, head?_toList_eq_take_one]

theorem off_the_run_filter_eq (n gg : Nat) (s : List AuctionRecord) (t : String) :
    (off_the_run_result n gg s).filter (fun r => auction_term r == t) =
      ((rows_of auction_term t (off_the_run_pool gg s)).drop 1).take n := by
  rw [off_the_run_result,
    filter_flatMap_by_key auction_term
      (fun u => ((rows_of auction_term u (off_the_run_pool gg s)).drop 1).take n)
      (by
        intro u a ha
        have ha2 : a ∈ rows_of auction_term u (off_the_run_pool gg s) :=
          List.mem_of_mem_drop (List.mem_of_mem_take ha)
        exact ((mem_rows_of _ _ _ _).mp ha2).2)
      t _ (keys_of_nodup _ _)]
  by_cases htp : t ∈ keys_of auction_term (off_the_run_pool gg s)
  · rw [if_pos htp]
  · rw [if_neg htp, rows_of_eq_nil_of_not_mem_keys _ _ _ htp]
    simp

theorem group_of_masked_combined (n : Nat) (current_date : Int)
    (records : List AuctionRecord) (t : String)
    (hdist : (filtered_auctions current_date records).Pairwise
      (fun a b => a.issue_date ≠ b.issue_date))
    (ht : t ∈ keys_of auction_term (sorted_auctions current_date records))
    (hmap : (tenor_mapping t).isSome = true) :
    rows_of auction_term t (masked_result n current_date records) =
      (rows_of auction_term t (sorted_auctions current_date records)).take 1 ++
        ((rows_of auction_term t (off_the_run_pool
            (keys_of auction_term (sorted_auctions current_date records)).length
            (sorted_auctions current_date records))).drop 1).take n := by
  have hmaskstep : rows_of auction_term t (masked_result n current_date records) =
      (combined_result n current_date records).filter (fun r => auction_term r == t) := by
    rw [masked_result, rows_of, List.filter_filter]
    apply List.filter_congr
    intro r _
    by_cases hr : (auction_term r == t) = true
    · have hterm : r.original_security_term = t := by
        simpa [auction_term] using hr
      simp [hr, hterm, hmap]
    · simp [hr]
  have hLf : (on_the_run_result (sorted_auctions current_date records) ++
        off_the_run_result n
          (keys_of auction_term (sorted_auctions current_date records)).length
          (sorted_auctions current_date records)).filter
        (fun r => auction_term r == t) =
      (rows_of auction_term t (sorted_auctions current_date records)).take 1 ++
        ((rows_of auction_term t (off_the_run_pool
            (keys_of auction_term (sorted_auctions current_date records)).length
            (sorted_auctions current_date records))).drop 1).take n := by
    rw [List.filter_append, on_the_run_filter_eq _ _ ht, off_the_run_filter_eq]
  have hA : (rows_of auction_term t (sorted_auctions current_date records)).Pairwise
      (fun a b => b.issue_date < a.issue_date) :=
    (sorted_auctions_pairwise_strict current_date records hdist).filter _
  have hsub : ((rows_of auction_term t (sorted_auctions current_date records)).take 1 ++
        ((rows_of auction_term t (off_the_run_pool
            (keys_of auction_term (sorted_auctions current_date records)).length
            (sorted_auctions current_date records))).drop 1).take n).Sublist
      (rows_of auction_term t (sorted_auctions current_date records)) := by
    rw [rows_of_pool_eq]
    exact code_group_sublist _ _ n
  have hRHS : ((rows_of auction_term t (sorted_auctions current_date records)).take 1 ++
        ((rows_of auction_term t (off_the_run_pool
            (keys_of auction_term (sorted_auctions current_date records)).length
            (sorted_auctions current_date records))).drop 1).take n).Pairwise
      (fun a b => b.issue_date < a.issue_date) := List.Pairwise.sublist hsub hA
  have hp : ((combined_result n current_date records).filter
        (fun r => auction_term r == t)).Perm
      ((rows_of auction_term t (sorted_auctions current_date records)).take 1 ++
        ((rows_of auction_term t (off_the_run_pool
            (keys_of auction_term (sorted_auctions current_date records)).length
            (sorted_auctions current_date records))).drop 1).take n) := by
    rw [← hLf]
    exact (sort_by_perm term_issue_le _).filter _
  have hCp : ((combined_result n current_date records).filter
        (fun r => auction_term r == t)).Pairwise (fun a b => term_issue_le a b = true) :=
    (pairwise_sort_by term_issue_le term_issue_le_total term_issue_le_trans _).filter _
  have hCle : ((combined_result n current_date records).filter
        (fun r => auction_term r == t)).Pairwise
      (fun a b => b.issue_date ≤ a.issue_date) := by
    refine hCp.imp_of_mem ?_
    intro a b hma hmb hab
    have hta : a.original_security_term = t := by
      simpa [auction_term] using (List.mem_filter.mp hma).2
    have htb : b.original_security_term = t := by
      simpa [auction_term] using (List.mem_filter.mp hmb).2
    rw [term_issue_le, if_pos (by simp [hta, htb]), decide_eq_true_eq] at hab
    exact hab
  have hCne : ((combined_result n current_date records).filter
        (fun r => auction_term r == t)).Pairwise
      (fun a b => a.issue_date ≠ b.issue_date) := by
    refine (List.Perm.pairwise_iff ?_ hp).mpr (hRHS.imp ?_)
    · intro x y hxy
      exact hxy.symm
    · intro a b hh
      omega
  have hCstrict : ((combined_result n current_date records).filter
        (fun r => auction_term r == t)).Pairwise
      (fun a b => b.issue_date < a.issue_date) :=
    (hCle.and hCne).imp (by rintro a b ⟨h1, h2⟩; omega)
  rw [hmaskstep,
    eq_of_perm_of_pairwise (fun a b : AuctionRecord => b.issue_date < a.issue_date)
      (by intro a b h1 h2; omega) hp hCstrict hRHS]

/-- C5 counterexample: on the six-record set ex_records with depth n = 1,
the resolver's rank-1 layer is [D, F], but the claim's rule (rank 1 = the
most recent issue excluding the on-the-run record of each group) selects
[C, E]: the records at input positions 0 and 1 are dropped from the
off-the-run pool by the index-based row exclusion, so position 1 of each
remaining group is the third most recent issue, not the second. -/
theorem c5_counterexample :
    (get_last_n_off_the_run_cusips 1 100 ex_records).map
        (fun lay => lay.map (fun r => r.cusip)) = [["A", "B"], ["D", "F"]] ∧
    (spec_off_the_run_rank 1 "2-Year" 100 ex_records).map (fun r => r.cusip) = some "C" ∧
    (spec_off_the_run_rank 1 "3-Year" 100 ex_records).map (fun r => r.cusip) = some "E" ∧
    ¬ ((get_last_n_off_the_run_cusips 1 100 ex_records).map
        (fun lay => lay.map (fun r => r.cusip)) = [["A", "B"], ["C", "E"]]) := by decide

/-- C5 amended: for every input set whose filtered records carry pairwise
distinct issue dates, and every mapped term present after filtering, the
resolver selects as on-the-run the record with maximum issue_date of the
term group (the head of the issue-descending group), while the off-the-run
rank k entry (k = 1..n) of the group is position k of the group within the
pool of records whose original input position is at least the number of
term groups — the index-based row exclusion removes rows by original
position, not the on-the-run records, so rank k equals the k-th most recent
issue excluding the on-the-run record only when no surviving record sits at
input position below the group count; every emitted layer is internally
sorted by numeric tenor ascending. -/
theorem c5_amended (n : Nat) (current_date : Int) (records : List AuctionRecord)
    (t : String)
    (hdist : (filtered_auctions current_date records).Pairwise
      (fun a b => a.issue_date ≠ b.issue_date))
    (ht : t ∈ keys_of auction_term (sorted_auctions current_date records))
    (hmap : (tenor_mapping t).isSome = true) :
    rows_of auction_term t (masked_result n current_date records) =
      (rows_of auction_term t (sorted_auctions current_date records)).take 1 ++
        ((rows_of auction_term t (off_the_run_pool
            (keys_of auction_term (sorted_auctions current_date records)).length
            (sorted_auctions current_date records))).drop 1).take n ∧
    (∀ x ∈ rows_of auction_term t (sorted_auctions current_date records),
      ∀ y, (rows_of auction_term t (sorted_auctions current_date records)).head? = some y →
        x.issue_date ≤ y.issue_date) ∧
    ∀ i : Nat, (layer i (masked_result n current_date records)).Pairwise
      (fun a b => tenor_value a ≤ tenor_value b) := by
  refine ⟨group_of_masked_combined n current_date records t hdist ht hmap, ?_,
    fun i => layer_pairwise_tenor i _⟩
  intro x hx y hy
  have hpw : (rows_of auction_term t (sorted_auctions current_date records)).Pairwise
      (fun a b => b.issue_date ≤ a.issue_date) :=
    (sorted_auctions_pairwise current_date records).filter _
  rcases List.head?_eq_some_iff.mp hy with ⟨ys, hys⟩
  rw [hys] at hpw hx
  rcases List.mem_cons.mp hx with rfl | hx2
  · exact le_refl _
  · exact List.rel_of_pairwise_cons hpw hx2

theorem c5_amended_witness :
    ((filtered_auctions 100 ex_records).Pairwise
        (fun a b => a.issue_date ≠ b.issue_date) ∧
      "2-Year" ∈ keys_of auction_term (sorted_auctions 100 ex_records) ∧
      (tenor_mapping "2-Year").isSome = true) ∧
    (rows_of auction_term "2-Year" (masked_result 1 100 ex_records) =
      (rows_of auction_term "2-Year" (sorted_auctions 100 ex_records)).take 1 ++
        ((rows_of auction_term "2-Year" (off_the_run_pool
            (keys_of auction_term (sorted_auctions 100 ex_records)).length
            (sorted_auctions 100 ex_records))).drop 1).take 1 ∧
    (∀ x ∈ rows_of auction_term "2-Year" (sorted_auctions 100 ex_records),
      ∀ y, (rows_of auction_term "2-Year" (sorted_auctions 100 ex_records)).head? = some y →
        x.issue_date ≤ y.issue_date) ∧
    ∀ i : Nat, (layer i (masked_result 1 100 ex_records)).Pairwise
      (fun a b => tenor_value a ≤ tenor_value b)) :=
  ⟨⟨by decide, by decide, by decide⟩,
   c5_amended 1 100 ex_records "2-Year" (by decide) (by decide) (by decide)⟩

/-! ## C6: the exclusion filters -/

theorem mem_filtered_auctions (current_date : Int) (records : List AuctionRecord)
    (r : AuctionRecord) (h : r ∈ filtered_auctions current_date records) :
    excluded_security_type r.security_type = false ∧ reopened_bill r = false ∧
      r.auction_date ≤ current_date := by
  rw [filtered_auctions] at h
  have h1 := List.mem_filter.mp h
  have h2 := List.mem_filter.mp h1.1
  have h3 := List.mem_filter.mp h2.1
  refine ⟨by simpa using h3.2, by simpa using h2.2, by simpa using h1.2⟩

theorem mem_layer_mem_filtered (n : Nat) (current_date : Int)
    (records : List AuctionRecord) (i : Nat) (r : AuctionRecord)
    (h : r ∈ layer i (masked_result n current_date records)) :
    r ∈ filtered_auctions current_date records := by
  rw [layer, mem_sort_by] at h
  rcases List.mem_filterMap.mp h with ⟨u, _, hu⟩
  have hrm : r ∈ rows_of auction_term u (masked_result n current_date records) := by
    rcases List.getElem?_eq_some_iff.mp hu with ⟨hlt, hEq⟩
    exact hEq ▸ List.getElem_mem hlt
  have hrmask : r ∈ masked_result n current_date records :=
    ((mem_rows_of _ _ _ _).mp hrm).1
  have hrC : r ∈ combined_result n current_date records :=
    (List.mem_filter.mp hrmask).1
  rw [combined_result, mem_sort_by, List.mem_append] at hrC
  rcases hrC with hotr | hoff
  · have := mem_groupby_first auction_term _ r hotr
    rw [sorted_auctions, mem_sort_by] at this
    exact this
  · rw [off_the_run_result] at hoff
    rcases List.mem_flatMap.mp hoff with ⟨u2, _, hu2⟩
    have hpool : r ∈ off_the_run_pool
        (keys_of auction_term (sorted_auctions current_date records)).length
        (sorted_auctions current_date records) :=
      ((mem_rows_of _ _ _ _).mp
        (List.mem_of_mem_drop (List.mem_of_mem_take hu2))).1
    have hs : r ∈ sorted_auctions current_date records :=
      (List.mem_filter.mp hpool).1
    rw [sorted_auctions, mem_sort_by] at hs
    exact hs

/-- C6: no record of the TIPS/FRN/CMB security-type family and no Bill whose
original term differs from its current term ever appears in the On/Off-The-Run
Resolver's output, regardless of recency — both in
get_last_n_off_the_run_cusips (any depth, any current date) and in
get_on_the_run_cusips. -/
theorem c6_exclusions (n : Nat) (current_date : Int) (records : List AuctionRecord)
    (secs : List SecurityRecord) :
    (∀ lay ∈ get_last_n_off_the_run_cusips n current_date records, ∀ r ∈ lay,
      excluded_security_type r.security_type = false ∧ reopened_bill r = false) ∧
    (∀ x ∈ get_on_the_run_cusips secs,
      (x.secType == "TIPS" || x.secType == "FRN" || x.secType == "CMB") = false ∧
      (x.secType == "Bill" && x.originalSecurityTerm != x.securityTerm) = false) := by
  constructor
  · intro lay hlay r hr
    rw [get_last_n_off_the_run_cusips] at hlay
    rcases List.mem_map.mp hlay with ⟨i, _, hi⟩
    subst hi
    have := mem_filtered_auctions current_date records r
      (mem_layer_mem_filtered n current_date records i r hr)
    exact ⟨this.1, this.2.1⟩
  · intro x hx
    have hs := mem_groupby_first _ _ x hx
    rw [mem_sort_by] at hs
    have h1 := List.mem_filter.mp hs
    have h2 := List.mem_filter.mp h1.1
    constructor
    · simpa using h2.2
    · have hb := h1.2
      simp only [Bool.not_eq_true'] at hb
      exact hb

theorem c6_exclusions_witness :
    ([ex_rec_a, ex_rec_b] ∈ get_last_n_off_the_run_cusips 1 100 ex_records ∧
      ex_rec_a ∈ [ex_rec_a, ex_rec_b]) ∧
    (excluded_security_type ex_rec_a.security_type = false ∧
      reopened_bill ex_rec_a = false) :=
  ⟨⟨by decide, by decide⟩,
   (c6_exclusions 1 100 ex_records []).1 [ex_rec_a, ex_rec_b] (by decide)
     ex_rec_a (by decide)⟩

end CurveSpec
